import Mathlib

/-!
# Verification of the wildcard-extended JSON Patch engine (`json_patch_ext`)

Shallow embedding of `src/lib.rs` of the `json_patch_ext` crate.

Modelling conventions, justified against the source:

* `serde_json::Value` becomes the inductive `Json`; objects are association
  lists in insertion order (key uniqueness is maintained by the insert
  operation, matching `serde_json::Map::insert`; the spec declares insertion
  order irrelevant for correctness).

* A `jsonptr::Pointer` becomes a `List String` of *decoded* tokens.  The Rust
  code locates wildcards with `path.as_str().find("/*")` on the *encoded*
  pointer string.  Inside an encoded token `/` appears only as `~1` and `~`
  only as `~0`, so the substring `/*` occurs exactly at the separator in front
  of a token whose encoding, and therefore whose decoded form, begins with the
  character `*`.  Hence the string search plus `split_at`/`split_front` is
  modelled token-wise by `splitStar` below.

* The external `jsonptr` collaborator (resolution, assignment, index parsing)
  is not part of this repository; it is modelled from the spec's interface
  description (spec section 6) and the documented RFC 6901 behaviour of the
  crate: `resolve` walks tokens (object key lookup / canonical decimal array
  index), `assign` walks the path creating missing structure (arrays for the
  tokens `0` and `-`, objects otherwise, scalars overwritten) and fails on an
  out-of-bounds index into an existing array.

* Rust's `&mut Value` target references returned by `patch_ext_helper` are
  modelled as concrete paths into the (threaded) document; the per-target
  edits of `add_or_replace`/`remove` are then applied sequentially by path
  (`applyEdits`).  The returned target paths are pairwise non-prefix (they
  come from distinct array indices), so the sequential path-based edits agree
  with Rust's simultaneous disjoint mutable borrows.

* Recursive traversals (`matches`, `patch_ext_helper`) recurse on a strict
  suffix of the path after the first wildcard.  To keep every definition
  kernel-reducible we use structural recursion on a fuel argument initialised
  to `path.length + 1` (always sufficient, proved by the fuel-irrelevance
  lemmas); the fuel-exhausted branches are unreachable.
-/

set_option autoImplicit false

namespace JsonPatchExt

/-- JSON documents (`serde_json::Value`); the exact numeric representation is
irrelevant to the patch engine, so numbers are `Int`. -/
inductive Json where
  | null
  | bool (b : Bool)
  | num (n : Int)
  | str (s : String)
  | arr (elems : List Json)
  | obj (entries : List (String × Json))

/-- `PatchError` from `src/errors.rs`.  The payload-free constructors stand
for the pass-through error variants whose payloads the claims never inspect
(`JsonPatchError`, `ResolveError`, `AssignError`, `ParseIndexError`). -/
inductive PatchError where
  | outOfBounds (idx : Nat)
  | unexpectedType (path : String)
  | targetDoesNotExist (path : String)
  | jsonPatchError
  | resolveError
  | assignError
  | parseIndexError
deriving DecidableEq

/-- `PatchMode` from `src/lib.rs` (what to do when the referenced element does
not exist). -/
inductive PatchMode where
  | error
  | create
  | skip

/-- The result of `jsonptr::Token::to_index`: a numeric index or the array
append marker `-` (`Index::Num` / `Index::Next`). -/
inductive Idx where
  | num (n : Nat)
  | next
deriving DecidableEq

/-! ## Object (association list) primitives, mirroring `serde_json::Map` -/

/-- Key lookup in an object (first matching entry). -/
def lookupKey (k : String) : List (String × Json) → Option Json
  | [] => none
  | kv :: rest => if kv.1 = k then some kv.2 else lookupKey k rest

/-- `serde_json::Map::insert`: replace the value of an existing key in place,
otherwise append the new entry. -/
def objSet (k : String) (v : Json) : List (String × Json) → List (String × Json)
  | [] => [(k, v)]
  | kv :: rest => if kv.1 = k then (kv.1, v) :: rest else kv :: objSet k v rest

/-- `serde_json::Map::remove`: drop the entry with the given key, if any. -/
def objRemove (k : String) : List (String × Json) → List (String × Json)
  | [] => []
  | kv :: rest => if kv.1 = k then rest else kv :: objRemove k rest

/-- `serde_json::Map::contains_key`. -/
def containsKey (k : String) (kvs : List (String × Json)) : Bool :=
  (lookupKey k kvs).isSome

/-! ## Decimal array-index tokens (`jsonptr::Token::to_index`, RFC 6901) -/

/-- Is `c` one of the ASCII digits `0`-`9`? -/
def isDigitChar (c : Char) : Bool :=
  48 ≤ c.toNat && c.toNat ≤ 57

/-- Numeric value of an ASCII digit character. -/
def digitVal (c : Char) : Nat := c.toNat - 48

/-- The ASCII digit character for `d < 10`. -/
def natDigitChar : Nat → Char
  | 0 => '0' | 1 => '1' | 2 => '2' | 3 => '3' | 4 => '4'
  | 5 => '5' | 6 => '6' | 7 => '7' | 8 => '8' | 9 => '9'
  | _ => '0'

/-- Decimal digits of `n`, most significant first; fuel-driven so that it is
structurally recursive (any `fuel > n` yields the decimal numeral). -/
def natDigitsAux : Nat → Nat → List Char
  | 0, _ => []
  | fuel + 1, n =>
    if n < 10 then [natDigitChar n]
    else natDigitsAux fuel (n / 10) ++ [natDigitChar (n % 10)]

/-- Decimal digit list of `n`. -/
def natChars (n : Nat) : List Char := natDigitsAux (n + 1) n

/-- The decimal token for array index `n` (Rust `format!("{i}")`). -/
def natTok (n : Nat) : String := String.mk (natChars n)

/-- Value of a list of decimal digits, most significant first. -/
def parseVal (cs : List Char) : Nat :=
  cs.foldl (fun a c => a * 10 + digitVal c) 0

/-- `jsonptr::Token::to_index` on a decoded token: the exact token `-` is the
append marker; otherwise the token must be a canonical decimal numeral (RFC
6901: digits only, no leading zero except `0` itself). -/
def toIndex (s : String) : Option Idx :=
  match s.data with
  | [] => none
  | c :: cs =>
    if c = '-' ∧ cs = [] then some Idx.next
    else if (c :: cs).all isDigitChar ∧ (c ≠ '0' ∨ cs = []) then
      some (Idx.num (parseVal (c :: cs)))
    else none

/-! ## Pointer primitives -/

/-- Does the decoded token begin with the character `*`?  This is exactly the
condition under which the encoded pointer string contains `/*` at this
token's separator. -/
def startsStar (s : String) : Bool :=
  match s.data with
  | [] => false
  | c :: _ => c = '*'

/-- `path.as_str().find("/*")` followed by `split_at` and `split_front`:
returns `(head, c)` where `head` is the tokens before the first star-initial
token and `c` the tokens after it (the star token itself is discarded, as by
`cons.split_front()`); `none` when no token begins with `*`. -/
def splitStar : List String → Option (List String × List String)
  | [] => none
  | t :: rest =>
    if startsStar t then some ([], rest)
    else (splitStar rest).map (fun hc => (t :: hc.1, hc.2))

/-- `Pointer::split_back`: all but the last token, and the last token. -/
def splitBack : List String → Option (List String × String)
  | [] => none
  | t :: rest =>
    match splitBack rest with
    | none => some ([], t)
    | some (init, last) => some (t :: init, last)

/-- Re-encode a decoded token (`~` as `~0`, `/` as `~1`), for error strings. -/
def encTok (s : String) : String :=
  String.mk (s.data.foldr
    (fun c acc =>
      if c = '~' then '~' :: '0' :: acc
      else if c = '/' then '~' :: '1' :: acc
      else c :: acc) [])

/-- The encoded string of a pointer (`Pointer::as_str` / `to_string`):
`/`-separated encoded tokens, empty for the root pointer. -/
def ptrStr (p : List String) : String :=
  String.join (p.map (fun t => "/" ++ encTok t))

/-- `jsonptr` resolution (`Pointer::resolve`): walk the tokens; object tokens
are key lookups, array tokens must parse as numeric indices in bounds (the
append marker `-` and malformed indices do not resolve). -/
def resolve : List String → Json → Option Json
  | [], v => some v
  | t :: rest, Json.obj kvs =>
    match lookupKey t kvs with
    | some child => resolve rest child
    | none => none
  | t :: rest, Json.arr xs =>
    match toIndex t with
    | some (Idx.num n) =>
      match xs[n]? with
      | some child => resolve rest child
      | none => none
    | _ => none
  | _, _ => none

/-- The fresh structure `jsonptr` assignment builds for the unresolved rest of
a path: arrays (with one element) for the tokens `0` and `-`, objects for all
other tokens. -/
def expand : List String → Json → Json
  | [], v => v
  | t :: rest, v =>
    if t = "0" ∨ t = "-" then Json.arr [expand rest v]
    else Json.obj [(t, expand rest v)]

/-- Modelled from the spec: `jsonptr`'s `Pointer::assign` primitive, an
external collaborator of this repository (spec section 6: structural
assignment that creates missing ancestors and fails only on structural
conflicts).  Walks the path: existing object entries and in-bounds array
elements are descended into, a missing object key or the index one past the
end of an array receives the `expand`-ed remainder, scalars are overwritten,
and an out-of-bounds or malformed index into an existing array is an
assignment error. -/
def assign : List String → Json → Json → Except PatchError Json
  | [], newv, _ => Except.ok newv
  | t :: rest, newv, Json.obj kvs =>
    match lookupKey t kvs with
    | some child => (assign rest newv child).map (fun c2 => Json.obj (objSet t c2 kvs))
    | none => Except.ok (Json.obj (objSet t (expand rest newv) kvs))
  | t :: rest, newv, Json.arr xs =>
    match toIndex t with
    | some (Idx.num n) =>
      if n < xs.length then
        (assign rest newv (xs.getD n Json.null)).map (fun c2 => Json.arr (xs.set n c2))
      else if n = xs.length then Except.ok (Json.arr (xs ++ [expand rest newv]))
      else Except.error PatchError.assignError
    | some Idx.next => Except.ok (Json.arr (xs ++ [expand rest newv]))
    | none => Except.error PatchError.assignError
  | t :: rest, newv, _ => Except.ok (expand (t :: rest) newv)

/-- Replace the node a concrete path resolves to (the write-back half of a
Rust `&mut` obtained by `resolve_mut`); `none` when the path does not
resolve. -/
def updateAt : List String → (Json → Json) → Json → Option Json
  | [], f, v => some (f v)
  | t :: rest, f, Json.obj kvs =>
    match lookupKey t kvs with
    | some child => (updateAt rest f child).map (fun c2 => Json.obj (objSet t c2 kvs))
    | none => none
  | t :: rest, f, Json.arr xs =>
    match toIndex t with
    | some (Idx.num n) =>
      match xs[n]? with
      | some child => (updateAt rest f child).map (fun c2 => Json.arr (xs.set n c2))
      | none => none
    | _ => none
  | _, _, _ => none

/-! ## The path matcher `matches` -/

/-- The per-element fan-out of `matches`: apply `f` to each array element in
ascending index order, prefixing each returned concrete path with
`head ++ [index token]` (Rust `head.concat(&idx_path.concat(p))`). -/
def matchElems (f : Json → List (List String × Json)) (head : List String) :
    Nat → List Json → List (List String × Json)
  | _, [] => []
  | i, x :: rest =>
    (f x).map (fun pv => (head ++ natTok i :: pv.1, pv.2)) ++
      matchElems f head (i + 1) rest

/-- The wildcard branch of `matches`: the head must resolve to an array,
otherwise there is no match. -/
def matchCont (f : Json → List (List String × Json)) (head : List String)
    (v : Json) : List (List String × Json) :=
  match resolve head v with
  | some (Json.arr xs) => matchElems f head 0 xs
  | _ => []

/-- Fuelled body of `matches` (`src/lib.rs`, `matches`): without a wildcard,
resolve the whole path (no match on failure); with one, split at the first
wildcard and fan out over the head array. -/
def matchesFuel : Nat → List String → Json → List (List String × Json)
  | 0, _, _ => []
  | fuel + 1, path, v =>
    match splitStar path with
    | none =>
      match resolve path v with
      | some x => [(path, x)]
      | none => []
    | some (head, c) => matchCont (matchesFuel fuel c) head v

/-- `matches` from `src/lib.rs` (the spec calls it `match_paths`; `matches` is a Lean keyword): all concrete paths a wildcard path denotes in
a document, paired with the values found there. -/
def match_paths (path : List String) (value : Json) : List (List String × Json) :=
  matchesFuel (path.length + 1) path value

/-! ## The mutation resolver `patch_ext_helper`

Rust returns `Vec<&'a mut Value>`; we return the list of concrete paths of
those targets, together with the document as mutated so far (the `Create`
policy assigns into the document even when the call later fails). -/

/-- The per-element fan-out of `patch_ext_helper`: process the array elements
left to right with `f`, threading each element's mutation back into the
array.  An error aborts the loop (Rust `?` in the `for`), leaving the
remaining elements untouched; on success the target paths of element `i` are
prefixed with `head ++ [index token]` to make them absolute. -/
def mapMElems (f : Json → Json × Except PatchError (List (List String)))
    (head : List String) :
    Nat → List Json → List Json × Except PatchError (List (List String))
  | _, [] => ([], Except.ok [])
  | i, x :: rest =>
    match f x with
    | (x2, Except.error e) => (x2 :: rest, Except.error e)
    | (x2, Except.ok subs) =>
      match mapMElems f head (i + 1) rest with
      | (rest2, Except.error e) => (x2 :: rest2, Except.error e)
      | (rest2, Except.ok more) =>
        (x2 :: rest2,
          Except.ok ((subs.map (fun p => head ++ natTok i :: p)) ++ more))

/-- The tail of the wildcard branch of `patch_ext_helper`, run once the head
is known (or made) to exist: `head.resolve_mut(value)?.as_array_mut()` must
yield an array (else `UnexpectedType`), whose elements are fanned out over
with `f`; the mutated elements are written back at `head`. -/
def helperCont (f : Json → Json × Except PatchError (List (List String)))
    (head : List String) (v1 : Json) :
    Json × Except PatchError (List (List String)) :=
  match resolve head v1 with
  | some (Json.arr xs) =>
    match mapMElems f head 0 xs with
    | (xs2, r) => ((updateAt head (fun _ => Json.arr xs2) v1).getD v1, r)
  | some _ => (v1, Except.error (PatchError.unexpectedType (ptrStr head)))
  | none => (v1, Except.error PatchError.resolveError)

/-- The wildcard branch of `patch_ext_helper`: if the head does not resolve,
fail (`Error`), structurally assign an empty array at the *full* path
(`Create`), or return no targets (`Skip`); once the head exists, continue
with `helperCont`. -/
def helperStar (f : Json → Json × Except PatchError (List (List String)))
    (path head : List String) (mode : PatchMode) (v : Json) :
    Json × Except PatchError (List (List String)) :=
  match resolve head v with
  | some _ => helperCont f head v
  | none =>
    match mode with
    | PatchMode.error =>
      (v, Except.error (PatchError.targetDoesNotExist (ptrStr path)))
    | PatchMode.skip => (v, Except.ok [])
    | PatchMode.create =>
      match assign path (Json.arr []) v with
      | Except.error e => (v, Except.error e)
      | Except.ok v2 => helperCont f head v2

/-- Fuelled body of `patch_ext_helper` (`src/lib.rs`).  Without a wildcard:
resolve the path, and on failure fail (`Error`), structurally assign an empty
object and return the now-resolvable location (`Create`), or return no
targets (`Skip`).  With a wildcard: if the head does not resolve, fail
(`Error`), assign an empty array at the *full* path (`Create`), or return no
targets (`Skip`); then the head must be an array, over whose elements the
remaining path (after the wildcard token) is recursed. -/
def helperFuel : Nat → List String → PatchMode → Json →
    Json × Except PatchError (List (List String))
  | 0, _, _, v => (v, Except.ok [])
  | fuel + 1, path, mode, v =>
    match splitStar path with
    | none =>
      match resolve path v with
      | some _ => (v, Except.ok [path])
      | none =>
        match mode with
        | PatchMode.error =>
          (v, Except.error (PatchError.targetDoesNotExist (ptrStr path)))
        | PatchMode.skip => (v, Except.ok [])
        | PatchMode.create =>
          match assign path (Json.obj []) v with
          | Except.error e => (v, Except.error e)
          | Except.ok v2 =>
            match resolve path v2 with
            | some _ => (v2, Except.ok [path])
            | none => (v2, Except.error PatchError.resolveError)
    | some (head, c) => helperStar (helperFuel fuel c mode) path head mode v

/-- `patch_ext_helper` from `src/lib.rs`: all the mutable end locations a
(possibly wildcard) pointer references, as concrete paths, plus the document
after any `Create`-policy assignments. -/
def patch_ext_helper (path : List String) (value : Json) (mode : PatchMode) :
    Json × Except PatchError (List (List String)) :=
  helperFuel (path.length + 1) path mode value

/-! ## The patch applicator -/

/-- Apply `edit` at each target path in order, stopping at the first error
(the edits already made remain in the document; the failing edit mutates
nothing, matching the Rust edit bodies, which error before mutating).  The
`resolveError` fallbacks are unreachable on the target lists produced by
`patch_ext_helper`: in Rust those targets are live `&mut` references. -/
def applyEdits (edit : Json → Except PatchError Json) :
    List (List String) → Json → Json × Except PatchError Unit
  | [], doc => (doc, Except.ok ())
  | t :: ts, doc =>
    match resolve t doc with
    | none => (doc, Except.error PatchError.resolveError)
    | some x =>
      match edit x with
      | Except.error e => (doc, Except.error e)
      | Except.ok y => applyEdits edit ts ((updateAt t (fun _ => y) doc).getD doc)

/-- The per-target edit of `add_or_replace`: on an object parent insert the
tail key (Replace requires the key to exist, else `TargetDoesNotExist`); on
an array parent a numeric tail index is bounds-checked (`OutOfBounds`) and
then overwritten (Replace) or inserted with a shift (Add), and the append
marker pushes; a scalar parent is `UnexpectedType`. -/
def editAddReplace (path : List String) (tail : String) (value : Json)
    (replace : Bool) : Json → Except PatchError Json
  | Json.obj kvs =>
    if replace ∧ ¬ containsKey tail kvs then
      Except.error (PatchError.targetDoesNotExist (ptrStr path))
    else Except.ok (Json.obj (objSet tail value kvs))
  | Json.arr xs =>
    match toIndex tail with
    | none => Except.error PatchError.parseIndexError
    | some (Idx.num idx) =>
      if idx < xs.length then
        Except.ok (Json.arr (if replace then xs.set idx value
          else xs.take idx ++ value :: xs.drop idx))
      else Except.error (PatchError.outOfBounds idx)
    | some Idx.next => Except.ok (Json.arr (xs ++ [value]))
  | _ => Except.error (PatchError.unexpectedType (ptrStr path))

/-- `add_or_replace` from `src/lib.rs`: an empty path is a no-op; otherwise
resolve the parent path (policy `Error` for Replace, `Create` for Add) and
apply the edit at every target. -/
def add_or_replace (obj : Json) (path : List String) (value : Json)
    (replace : Bool) : Json × Except PatchError Unit :=
  match splitBack path with
  | none => (obj, Except.ok ())
  | some (subpath, tail) =>
    let mode := if replace then PatchMode.error else PatchMode.create
    match patch_ext_helper subpath obj mode with
    | (v1, Except.error e) => (v1, Except.error e)
    | (v1, Except.ok targets) =>
      applyEdits (editAddReplace path tail value replace) targets v1

/-- The per-target edit of `remove`: an object parent drops the key (absent
keys are fine); an array parent is cleared entirely when the tail is the
wildcard token, otherwise a numeric index is bounds-checked and removed with
a shift, and the append marker is `UnexpectedType`; a scalar parent is
`UnexpectedType`. -/
def editRemove (path : List String) (key : String) : Json → Except PatchError Json
  | Json.obj kvs => Except.ok (Json.obj (objRemove key kvs))
  | Json.arr xs =>
    if key = "*" then Except.ok (Json.arr [])
    else
      match toIndex key with
      | none => Except.error PatchError.parseIndexError
      | some (Idx.num idx) =>
        if idx < xs.length then Except.ok (Json.arr (xs.eraseIdx idx))
        else Except.error (PatchError.outOfBounds idx)
      | some Idx.next => Except.error (PatchError.unexpectedType (encTok key))
  | _ => Except.error (PatchError.unexpectedType (ptrStr path))

/-- `remove` from `src/lib.rs`: an empty path replaces the whole document
with `null`; otherwise resolve the parent path under the `Skip` policy and
apply the removal at every target. -/
def remove (obj : Json) (path : List String) : Json × Except PatchError Unit :=
  match splitBack path with
  | none => (Json.null, Except.ok ())
  | some (subpath, key) =>
    match patch_ext_helper subpath obj PatchMode.skip with
    | (v1, Except.error e) => (v1, Except.error e)
    | (v1, Except.ok targets) => applyEdits (editRemove path key) targets v1

/-- The extended patch operations handled by the engine itself.  `Copy`,
`Move` and `Test` are dispatched verbatim to the external `json_patch` crate
(`x => patch(obj, &[x])`) and are outside the embedded surface; no claim
concerns them. -/
inductive PatchOperation where
  | add (path : List String) (value : Json)
  | remove (path : List String)
  | replace (path : List String) (value : Json)

/-- `patch_ext` from `src/lib.rs`: the public entry point, dispatching one
operation. -/
def patch_ext (obj : Json) (p : PatchOperation) : Json × Except PatchError Unit :=
  match p with
  | PatchOperation.add path value => add_or_replace obj path value false
  | PatchOperation.remove path => remove obj path
  | PatchOperation.replace path value => add_or_replace obj path value true

/-! ## Test fixtures (the repository's own test data) -/

/-- First array entry of the test fixture. -/
def entry0 : Json := Json.obj [("baz", Json.obj [("buzz", Json.num 0)])]

/-- Second array entry of the test fixture. -/
def entry1 : Json := Json.obj [("baz", Json.obj [("quzz", Json.num 1)])]

/-- Third array entry of the test fixture. -/
def entry2 : Json := Json.obj [("baz", Json.obj [("fixx", Json.num 2)])]

/-- The repository's test fixture
`{"foo":[{"baz":{"buzz":0}},{"baz":{"quzz":1}},{"baz":{"fixx":2}}]}`. -/
def testDoc : Json := Json.obj [("foo", Json.arr [entry0, entry1, entry2])]

/-- The nested-wildcard removal fixture `[[[{"bar":"baz"}],[{"fuzz":"quzz"}]]]`
from the claim about clearing arrays. -/
def nestedDoc : Json :=
  Json.arr [Json.arr [Json.arr [Json.obj [("bar", Json.str "baz")]],
                      Json.arr [Json.obj [("fuzz", Json.str "quzz")]]]]

/-! ## Basic lemmas about the pointer primitives -/

theorem splitStar_eq_none : ∀ {p : List String},
    splitStar p = none ↔ ∀ t ∈ p, startsStar t = false := by
  intro p
  induction p with
  | nil => simp [splitStar]
  | cons t rest ih =>
    by_cases hs : startsStar t = true
    · simp only [splitStar, if_pos hs]
      constructor
      · intro h; cases h
      · intro h
        exact absurd (h t (List.mem_cons_self t rest)) (by simp [hs])
    · simp only [splitStar, if_neg hs, Option.map_eq_none', ih, List.mem_cons]
      constructor
      · rintro h u (rfl | hu)
        · exact Bool.eq_false_iff.mpr hs
        · exact h u hu
      · intro h u hu
        exact h u (Or.inr hu)

theorem splitStar_length : ∀ {p : List String} {head c : List String},
    splitStar p = some (head, c) → p.length = head.length + c.length + 1 := by
  intro p
  induction p with
  | nil => intro head c h; simp [splitStar] at h
  | cons t rest ih =>
    intro head c h
    by_cases hs : startsStar t = true
    · simp only [splitStar, if_pos hs, Option.some.injEq, Prod.mk.injEq] at h
      obtain ⟨h1, h2⟩ := h
      subst h1; subst h2
      simp
    · simp only [splitStar, if_neg hs, Option.map_eq_some'] at h
      obtain ⟨⟨h1, c1⟩, hrest, heq⟩ := h
      cases heq
      have := ih hrest
      simp only [List.length_cons, this]
      omega

theorem splitStar_append {H : List String} (s : String) (R : List String)
    (h : ∀ t ∈ H, startsStar t = false) (hs : startsStar s = true) :
    splitStar (H ++ s :: R) = some (H, R) := by
  induction H with
  | nil => simp [splitStar, hs]
  | cons t rest ih =>
    have ht : startsStar t = false := h t (List.mem_cons_self t rest)
    have := ih (fun u hu => h u (List.mem_cons_of_mem t hu))
    simp [splitStar, ht, this]

/-! ## Resolution lemmas -/

theorem resolve_append : ∀ (a b : List String) (v : Json),
    resolve (a ++ b) v = (resolve a v).bind (resolve b) := by
  intro a
  induction a with
  | nil => intro b v; rfl
  | cons t rest ih =>
    intro b v
    cases v with
    | obj kvs =>
      cases hl : lookupKey t kvs with
      | none => simp [resolve, hl]
      | some child => simp [resolve, hl, ih]
    | arr xs =>
      cases hi : toIndex t with
      | none => simp [resolve, hi]
      | some i =>
        cases i with
        | next => simp [resolve, hi]
        | num n =>
          cases hg : xs[n]? with
          | none => simp [resolve, hi, hg]
          | some child => simp [resolve, hi, hg, ih]
    | null => simp [resolve]
    | bool b2 => simp [resolve]
    | num n => simp [resolve]
    | str s => simp [resolve]

theorem lookupKey_objSet (t : String) (v : Json) :
    ∀ kvs, lookupKey t (objSet t v kvs) = some v := by
  intro kvs
  induction kvs with
  | nil => simp [objSet, lookupKey]
  | cons kv rest ih =>
    by_cases hk : kv.1 = t
    · simp [objSet, hk, lookupKey]
    · simp [objSet, hk, lookupKey, ih]

theorem getElem?_set_self : ∀ (xs : List Json) (n : Nat) (a : Json),
    n < xs.length → (xs.set n a)[n]? = some a := by
  intro xs
  induction xs with
  | nil => intro n a h; simp at h
  | cons x rest ih =>
    intro n a h
    cases n with
    | zero => simp
    | succ m =>
      have := ih m a (by simpa using Nat.lt_of_succ_lt_succ h)
      simpa [List.set] using this

/-- Writing through a resolvable path succeeds, and re-resolving that path in
the written document yields the new node. -/
theorem resolve_updateAt : ∀ (p : List String) (f : Json → Json) (D x : Json),
    resolve p D = some x →
    ∃ D2, updateAt p f D = some D2 ∧ resolve p D2 = some (f x) := by
  intro p
  induction p with
  | nil =>
    intro f D x h
    cases h
    exact ⟨f D, rfl, rfl⟩
  | cons t rest ih =>
    intro f D x h
    cases D with
    | obj kvs =>
      cases hl : lookupKey t kvs with
      | none => simp [resolve, hl] at h
      | some child =>
        simp only [resolve, hl] at h
        obtain ⟨c2, hc2, hres⟩ := ih f child x h
        refine ⟨Json.obj (objSet t c2 kvs), ?_, ?_⟩
        · simp [updateAt, hl, hc2]
        · simp [resolve, lookupKey_objSet, hres]
    | arr xs =>
      cases hi : toIndex t with
      | none => simp [resolve, hi] at h
      | some idx =>
        cases idx with
        | next => simp [resolve, hi] at h
        | num n =>
          cases hg : xs[n]? with
          | none => simp [resolve, hi, hg] at h
          | some child =>
            simp only [resolve, hi, hg] at h
            obtain ⟨c2, hc2, hres⟩ := ih f child x h
            have hlen : n < xs.length := by
              by_contra hn
              rw [List.getElem?_eq_none (Nat.le_of_not_lt hn)] at hg
              cases hg
            refine ⟨Json.arr (xs.set n c2), ?_, ?_⟩
            · simp [updateAt, hi, hg, hc2]
            · simp [resolve, hi, getElem?_set_self _ _ _ hlen, hres]
    | null => cases h
    | bool b => cases h
    | num n => cases h
    | str s => cases h

/-! ## Sequential edits -/

theorem applyEdits_append (edit : Json → Except PatchError Json) :
    ∀ (ts1 ts2 : List (List String)) (doc : Json),
    applyEdits edit (ts1 ++ ts2) doc =
      match applyEdits edit ts1 doc with
      | (d, Except.ok _) => applyEdits edit ts2 d
      | (d, Except.error e) => (d, Except.error e) := by
  intro ts1
  induction ts1 with
  | nil => intro ts2 doc; rfl
  | cons t ts ih =>
    intro ts2 doc
    cases hr : resolve t doc with
    | none => simp [applyEdits, hr]
    | some x =>
      cases he : edit x with
      | error e => simp [applyEdits, hr, he]
      | ok y =>
        simp only [List.cons_append, applyEdits, hr, he]
        exact ih ts2 _

/-! ## Fuel irrelevance and the characteristic equations of the traversals -/

theorem matchElems_congr {f g : Json → List (List String × Json)}
    (hfg : ∀ x, f x = g x) (head : List String) :
    ∀ (i : Nat) (xs : List Json), matchElems f head i xs = matchElems g head i xs := by
  intro i xs
  induction xs generalizing i with
  | nil => rfl
  | cons x rest ih => simp [matchElems, hfg, ih]

theorem matchCont_congr {f g : Json → List (List String × Json)}
    (hfg : ∀ x, f x = g x) (head : List String) (v : Json) :
    matchCont f head v = matchCont g head v := by
  unfold matchCont
  cases resolve head v with
  | none => rfl
  | some x =>
    cases x with
    | arr xs => exact matchElems_congr hfg head 0 xs
    | null => rfl
    | bool b => rfl
    | num n => rfl
    | str s => rfl
    | obj kvs => rfl

theorem matchesFuel_irrel : ∀ (f1 : Nat) (p : List String) (v : Json) (f2 : Nat),
    p.length < f1 → p.length < f2 → matchesFuel f1 p v = matchesFuel f2 p v := by
  intro f1
  induction f1 with
  | zero => intro p v f2 h1 h2; omega
  | succ g ih =>
    intro p v f2 h1 h2
    cases f2 with
    | zero => omega
    | succ g2 =>
      simp only [matchesFuel]
      cases hs : splitStar p with
      | none => rfl
      | some hc =>
        obtain ⟨head, c⟩ := hc
        have hlen := splitStar_length hs
        exact matchCont_congr (fun x => ih c x g2 (by omega) (by omega)) head v

/-- The defining equation of `match_paths` in the wildcard-free case. -/
theorem match_paths_base {path : List String} (v : Json)
    (h : splitStar path = none) :
    match_paths path v =
      match resolve path v with
      | some x => [(path, x)]
      | none => [] := by
  show matchesFuel (path.length + 1) path v = _
  simp only [matchesFuel, h]

/-- The defining equation of `match_paths` in the wildcard case. -/
theorem match_paths_star {path head c : List String} (v : Json)
    (h : splitStar path = some (head, c)) :
    match_paths path v = matchCont (fun x => match_paths c x) head v := by
  show matchesFuel (path.length + 1) path v = _
  simp only [matchesFuel, h]
  have hlen := splitStar_length h
  exact matchCont_congr
    (fun x => matchesFuel_irrel path.length c x (c.length + 1) (by omega) (by omega))
    head v

theorem mapMElems_congr
    {f g : Json → Json × Except PatchError (List (List String))}
    (hfg : ∀ x, f x = g x) (head : List String) :
    ∀ (i : Nat) (xs : List Json), mapMElems f head i xs = mapMElems g head i xs := by
  intro i xs
  induction xs generalizing i with
  | nil => rfl
  | cons x rest ih => simp [mapMElems, hfg, ih]

theorem helperCont_congr
    {f g : Json → Json × Except PatchError (List (List String))}
    (hfg : ∀ x, f x = g x) (head : List String) (v1 : Json) :
    helperCont f head v1 = helperCont g head v1 := by
  unfold helperCont
  cases resolve head v1 with
  | none => rfl
  | some x =>
    cases x with
    | arr xs =>
      show (match mapMElems f head 0 xs with
            | (xs2, r) => ((updateAt head (fun _ => Json.arr xs2) v1).getD v1, r)) =
          (match mapMElems g head 0 xs with
            | (xs2, r) => ((updateAt head (fun _ => Json.arr xs2) v1).getD v1, r))
      rw [mapMElems_congr hfg head 0 xs]
    | null => rfl
    | bool b => rfl
    | num n => rfl
    | str s => rfl
    | obj kvs => rfl

theorem helperStar_congr
    {f g : Json → Json × Except PatchError (List (List String))}
    (hfg : ∀ x, f x = g x) (path head : List String) (mode : PatchMode)
    (v : Json) : helperStar f path head mode v = helperStar g path head mode v := by
  unfold helperStar
  cases resolve head v with
  | some hv => exact helperCont_congr hfg head v
  | none =>
    cases mode with
    | error => rfl
    | skip => rfl
    | create =>
      cases assign path (Json.arr []) v with
      | error e => rfl
      | ok v2 => exact helperCont_congr hfg head v2

theorem helperFuel_irrel : ∀ (f1 : Nat) (p : List String) (mode : PatchMode)
    (v : Json) (f2 : Nat), p.length < f1 → p.length < f2 →
    helperFuel f1 p mode v = helperFuel f2 p mode v := by
  intro f1
  induction f1 with
  | zero => intro p mode v f2 h1 h2; omega
  | succ g ih =>
    intro p mode v f2 h1 h2
    cases f2 with
    | zero => omega
    | succ g2 =>
      simp only [helperFuel]
      cases hs : splitStar p with
      | none => rfl
      | some hc =>
        obtain ⟨head, c⟩ := hc
        have hlen := splitStar_length hs
        exact helperStar_congr
          (fun x => ih c mode x g2 (by omega) (by omega)) p head mode v

/-- The defining equation of `patch_ext_helper` in the wildcard-free case. -/
theorem patch_ext_helper_base {path : List String} (v : Json) (mode : PatchMode)
    (h : splitStar path = none) :
    patch_ext_helper path v mode =
      match resolve path v with
      | some _ => (v, Except.ok [path])
      | none =>
        match mode with
        | PatchMode.error =>
          (v, Except.error (PatchError.targetDoesNotExist (ptrStr path)))
        | PatchMode.skip => (v, Except.ok [])
        | PatchMode.create =>
          match assign path (Json.obj []) v with
          | Except.error e => (v, Except.error e)
          | Except.ok v2 =>
            match resolve path v2 with
            | some _ => (v2, Except.ok [path])
            | none => (v2, Except.error PatchError.resolveError) := by
  show helperFuel (path.length + 1) path mode v = _
  simp only [helperFuel, h]

/-- The defining equation of `patch_ext_helper` in the wildcard case. -/
theorem patch_ext_helper_star {path head c : List String} (v : Json)
    (mode : PatchMode) (h : splitStar path = some (head, c)) :
    patch_ext_helper path v mode =
      helperStar (fun x => patch_ext_helper c x mode) path head mode v := by
  show helperFuel (path.length + 1) path mode v = _
  simp only [helperFuel, h]
  have hlen := splitStar_length h
  exact helperStar_congr
    (fun x => helperFuel_irrel path.length c mode x (c.length + 1) (by omega) (by omega))
    path head mode v

/-! ## The decimal index round trip: `toIndex (natTok n) = some (Idx.num n)` -/

theorem natDigitsAux_irrel : ∀ (f1 n f2 : Nat), n < f1 → n < f2 →
    natDigitsAux f1 n = natDigitsAux f2 n := by
  intro f1
  induction f1 with
  | zero => intro n f2 h1 h2; omega
  | succ g ih =>
    intro n f2 h1 h2
    cases f2 with
    | zero => omega
    | succ g2 =>
      simp only [natDigitsAux]
      by_cases hn : n < 10
      · simp [hn]
      · have hd : n / 10 < n := Nat.div_lt_self (by omega) (by omega)
        simp only [if_neg hn]
        rw [ih (n / 10) g2 (by omega) (by omega)]

theorem natChars_lt10 {n : Nat} (h : n < 10) : natChars n = [natDigitChar n] := by
  simp [natChars, natDigitsAux, h]

theorem natChars_ge10 {n : Nat} (h : 10 ≤ n) :
    natChars n = natChars (n / 10) ++ [natDigitChar (n % 10)] := by
  have hd : n / 10 < n := Nat.div_lt_self (by omega) (by omega)
  show natDigitsAux (n + 1) n = _
  simp only [natDigitsAux, if_neg (by omega : ¬ n < 10)]
  rw [natDigitsAux_irrel n (n / 10) (n / 10 + 1) (by omega) (by omega)]
  rfl

theorem natDigitChar_isDigit {d : Nat} (h : d < 10) :
    isDigitChar (natDigitChar d) = true := by
  interval_cases d <;> decide

theorem digitVal_natDigitChar {d : Nat} (h : d < 10) :
    digitVal (natDigitChar d) = d := by
  interval_cases d <;> decide

theorem natDigitChar_ne_zero {d : Nat} (h1 : d < 10) (h2 : d ≠ 0) :
    natDigitChar d ≠ '0' := by
  interval_cases d
  · exact absurd rfl h2
  all_goals decide

theorem parseVal_append_digit (as : List Char) (c : Char) :
    parseVal (as ++ [c]) = parseVal as * 10 + digitVal c := by
  simp [parseVal, List.foldl_append]

/-- The decimal numeral of `n` is nonempty, all digits, evaluates back to `n`,
and has a nonzero leading digit whenever `n ≥ 1`. -/
theorem natChars_spec : ∀ (N n : Nat), n ≤ N →
    natChars n ≠ [] ∧ (∀ c ∈ natChars n, isDigitChar c = true) ∧
    parseVal (natChars n) = n ∧
    (∀ c cs, natChars n = c :: cs → 1 ≤ n → c ≠ '0') := by
  intro N
  induction N with
  | zero =>
    intro n hn
    have hz : n = 0 := by omega
    subst hz
    refine ⟨by decide, by decide, by decide, ?_⟩
    intro c cs _ hpos
    omega
  | succ N ih =>
    intro n hn
    by_cases h10 : n < 10
    · refine ⟨by simp [natChars_lt10 h10], ?_, ?_, ?_⟩
      · intro c hc
        rw [natChars_lt10 h10] at hc
        simp only [List.mem_singleton] at hc
        subst hc
        exact natDigitChar_isDigit h10
      · rw [natChars_lt10 h10]
        simp [parseVal, digitVal_natDigitChar h10]
      · intro c cs h hpos
        rw [natChars_lt10 h10] at h
        injection h with h1 h2
        subst h1
        exact natDigitChar_ne_zero h10 (by omega)
    · have hd : n / 10 < n := Nat.div_lt_self (by omega) (by omega)
      obtain ⟨hne, hdig, hval, hhd⟩ := ih (n / 10) (by omega)
      have hc10 := natChars_ge10 (Nat.le_of_not_lt h10)
      have hmod : n % 10 < 10 := by omega
      refine ⟨?_, ?_, ?_, ?_⟩
      · rw [hc10]; simp
      · intro c hc
        rw [hc10] at hc
        rcases List.mem_append.mp hc with h1 | h1
        · exact hdig c h1
        · simp only [List.mem_singleton] at h1
          subst h1
          exact natDigitChar_isDigit hmod
      · rw [hc10, parseVal_append_digit, hval, digitVal_natDigitChar hmod]
        omega
      · intro c cs h hpos
        rw [hc10] at h
        obtain ⟨c0, cs0, hcons⟩ : ∃ c0 cs0, natChars (n / 10) = c0 :: cs0 := by
          cases hx : natChars (n / 10) with
          | nil => exact absurd hx hne
          | cons a b => exact ⟨a, b, rfl⟩
        rw [hcons, List.cons_append] at h
        injection h with h1 h2
        subst h1
        exact hhd c0 cs0 hcons (by omega)

theorem toIndex_cons (c : Char) (cs : List Char) (s : String)
    (h : s.data = c :: cs) :
    toIndex s =
      (if c = '-' ∧ cs = [] then some Idx.next
       else if (c :: cs).all isDigitChar ∧ (c ≠ '0' ∨ cs = []) then
         some (Idx.num (parseVal (c :: cs)))
       else none) := by
  unfold toIndex
  rw [h]

/-- Rust writes wildcard-replacing indices with `format!("{i}")`; `jsonptr`
parses them back with `to_index`.  The round trip is the identity. -/
theorem toIndex_natTok (n : Nat) : toIndex (natTok n) = some (Idx.num n) := by
  obtain ⟨hne, hdig, hval, hhd⟩ := natChars_spec n n le_rfl
  obtain ⟨c, cs, hcons⟩ : ∃ c cs, natChars n = c :: cs := by
    cases hx : natChars n with
    | nil => exact absurd hx hne
    | cons a b => exact ⟨a, b, rfl⟩
  rw [toIndex_cons c cs (natTok n)
    ((rfl : (natTok n).data = natChars n).trans hcons)]
  have hcd : isDigitChar c = true := hdig c (by rw [hcons]; exact List.mem_cons_self _ _)
  have hcne : ¬ (c = '-' ∧ cs = []) := by
    rintro ⟨rfl, -⟩
    revert hcd
    decide
  rw [if_neg hcne]
  have hall : (c :: cs).all isDigitChar = true := by
    rw [← hcons]
    exact List.all_eq_true.mpr (fun x hx => hdig x hx)
  have hor : c ≠ '0' ∨ cs = [] := by
    by_cases hn0 : n = 0
    · subst hn0
      have h0 : c :: cs = ['0'] := hcons.symm.trans (by decide)
      injection h0 with h1 h2
      exact Or.inr h2
    · exact Or.inl (hhd c cs hcons (by omega))
  rw [if_pos ⟨hall, hor⟩, ← hcons, hval]

/-! ## Facts connecting the element loops to the matcher -/

theorem match_paths_nil (x : Json) : match_paths [] x = [([], x)] := rfl

/-- When the remainder after the wildcard is star-free, the fan-out keeps
exactly one entry per array element in which the remainder resolves, in
ascending index order. -/
theorem matchElems_filterMap (R head : List String)
    (hR : ∀ t ∈ R, startsStar t = false) : ∀ (xs : List Json) (i : Nat),
    matchElems (fun x => match_paths R x) head i xs =
      (List.enumFrom i xs).filterMap (fun ix =>
        (resolve R ix.2).map (fun v => (head ++ natTok ix.1 :: R, v))) := by
  intro xs
  induction xs with
  | nil => intro i; rfl
  | cons x rest ih =>
    intro i
    show (match_paths R x).map (fun pv => (head ++ natTok i :: pv.1, pv.2)) ++
        matchElems (fun x => match_paths R x) head (i + 1) rest = _
    rw [match_paths_base x (splitStar_eq_none.mpr hR), ih]
    cases hr : resolve R x with
    | some v => simp [List.enumFrom, List.filterMap_cons, hr]
    | none => simp [List.enumFrom, List.filterMap_cons, hr]

/-- Closed form of the fan-out for an arbitrary remainder: the recursive
matches of each element, in ascending index order, with the concrete index
token spliced in front of each recursive path. -/
theorem matchElems_bind (f : Json → List (List String × Json))
    (head : List String) : ∀ (xs : List Json) (i : Nat),
    matchElems f head i xs =
      (List.enumFrom i xs).flatMap (fun ix =>
        (f ix.2).map (fun pv => (head ++ natTok ix.1 :: pv.1, pv.2))) := by
  intro xs
  induction xs with
  | nil => intro i; rfl
  | cons x rest ih =>
    intro i
    show (f x).map (fun pv => (head ++ natTok i :: pv.1, pv.2)) ++
        matchElems f head (i + 1) rest = _
    rw [ih]
    simp [List.enumFrom]

/-- Membership in the matcher fan-out comes from some array element. -/
theorem matchElems_mem {f : Json → List (List String × Json)}
    {head : List String} :
    ∀ (xs : List Json) (i : Nat) (pv : List String × Json),
    pv ∈ matchElems f head i xs →
    ∃ j x pv', xs[j]? = some x ∧ pv' ∈ f x ∧
      pv = (head ++ natTok (i + j) :: pv'.1, pv'.2) := by
  intro xs
  induction xs with
  | nil => intro i pv h; exact absurd h (List.not_mem_nil pv)
  | cons x rest ih =>
    intro i pv h
    have h' : pv ∈ (f x).map (fun pv => (head ++ natTok i :: pv.1, pv.2)) ++
        matchElems f head (i + 1) rest := h
    rcases List.mem_append.mp h' with h1 | h1
    · obtain ⟨pv', hpv', heq⟩ := List.mem_map.mp h1
      exact ⟨0, x, pv', by simp, hpv', by rw [← heq]; simp⟩
    · obtain ⟨j, x', pv', hget, hpv', heq⟩ := ih (i + 1) pv h1
      have harith : i + 1 + j = i + (j + 1) := by omega
      rw [harith] at heq
      exact ⟨j + 1, x', pv', by simpa using hget, hpv', heq⟩

/-- When the mutation fan-out succeeds without changing any element, its
target paths are exactly those of the matcher fan-out. -/
theorem mapMElems_agree
    {g : Json → Json × Except PatchError (List (List String))}
    {mf : Json → List (List String × Json)} {head : List String} :
    ∀ (xs xs2 : List Json) (i : Nat) (ts : List (List String)),
    mapMElems g head i xs = (xs2, Except.ok ts) → xs2 = xs →
    (∀ x ∈ xs, ∀ subs, g x = (x, Except.ok subs) → subs = (mf x).map Prod.fst) →
    ts = (matchElems mf head i xs).map Prod.fst := by
  intro xs
  induction xs with
  | nil =>
    intro xs2 i ts h1 h2 h3
    have h1' : (([], Except.ok []) :
        List Json × Except PatchError (List (List String))) = (xs2, Except.ok ts) := h1
    simp only [Prod.mk.injEq, Except.ok.injEq] at h1'
    rw [← h1'.2]
    rfl
  | cons x rest ih =>
    intro xs2 i ts h1 h2 h3
    subst h2
    cases hgx : g x with
    | mk x2 r =>
      simp only [mapMElems, hgx] at h1
      cases r with
      | error e => simp at h1
      | ok subs =>
        cases hrec : mapMElems g head (i + 1) rest with
        | mk rest2 r2 =>
          simp only [hrec] at h1
          cases r2 with
          | error e => simp at h1
          | ok more =>
            simp only [Prod.mk.injEq, Except.ok.injEq, List.cons.injEq] at h1
            obtain ⟨⟨hx2, hrest2⟩, hts⟩ := h1
            rw [hx2] at hgx
            rw [hrest2] at hrec
            have hsubs := h3 x (List.mem_cons_self x rest) subs hgx
            have hmore : more = (matchElems mf head (i + 1) rest).map Prod.fst :=
              ih rest (i + 1) more hrec rfl
                (fun y hy subs2 hg2 => h3 y (List.mem_cons_of_mem x hy) subs2 hg2)
            rw [← hts, hsubs, hmore]
            simp [matchElems, List.map_append, List.map_map, Function.comp]

/-- Shared failure shape of `add_or_replace`: when the per-target edit loop
reaches a target whose edit fails, the whole call returns that error and the
document keeps exactly the edits already made. -/
theorem add_or_replace_fail_at
    (repl : Bool) (path subpath : List String) (tail : String)
    (val D D0 D1 x : Json) (ts1 ts2 : List (List String)) (t : List String)
    (e : PatchError)
    (h1 : splitBack path = some (subpath, tail))
    (h2 : patch_ext_helper subpath D
      (if repl then PatchMode.error else PatchMode.create) =
      (D0, Except.ok (ts1 ++ t :: ts2)))
    (h3 : applyEdits (editAddReplace path tail val repl) ts1 D0 = (D1, Except.ok ()))
    (h4 : resolve t D1 = some x)
    (h5 : editAddReplace path tail val repl x = Except.error e) :
    add_or_replace D path val repl = (D1, Except.error e) := by
  simp only [add_or_replace, h1]
  rw [h2]
  show applyEdits (editAddReplace path tail val repl) (ts1 ++ t :: ts2) D0 =
    (D1, Except.error e)
  rw [applyEdits_append, h3]
  show applyEdits (editAddReplace path tail val repl) (t :: ts2) D1 =
    (D1, Except.error e)
  simp only [applyEdits, h4, h5]

/-! ## The claims -/

/-- C10: applying an Add or Replace operation at the empty (root) path via
`patch_ext` returns `Ok` and leaves the document entirely unchanged; the
value is written nowhere (the root edit is a silent no-op). -/
theorem root_add_replace_is_noop : ∀ (D v : Json),
    patch_ext D (PatchOperation.add [] v) = (D, Except.ok ()) ∧
    patch_ext D (PatchOperation.replace [] v) = (D, Except.ok ()) :=
  fun _ _ => ⟨rfl, rfl⟩

/-- C3: the claim says that under the `Create` policy an unresolvable
wildcard head leads to a structural assignment of an empty array at the full
path followed by a successful empty result.  The code instead errors: the
assignment at the full path (which still contains the `*` token) creates an
*object* `{"*": []}` at the head position, so the subsequent
`as_array_mut` fails with `UnexpectedType`.  Evaluated here on the failing
input `add("/foo/*/bar", 42)` against the empty object: the call returns the
`UnexpectedType("/foo")` error (and leaves `{"foo": {"*": []}}` behind)
rather than succeeding with no targets. -/
theorem create_missing_wildcard_head_errors :
    patch_ext (Json.obj []) (PatchOperation.add ["foo", "*", "bar"] (Json.num 42)) =
      (Json.obj [("foo", Json.obj [("*", Json.arr [])])],
       Except.error (PatchError.unexpectedType "/foo")) := rfl

/-- C4: the claim (and the crate's own module documentation) says an Add
whose path ends in a wildcard always fails.  It does not: when the matched
parent is an object, the trailing `*` is treated as a literal object key and
the operation succeeds.  Evaluated here on the failing input
`add("/foo/*", 42)` against `{"foo": {}}`: the call returns `Ok` and the
document becomes `{"foo": {"*": 42}}`. -/
theorem add_trailing_wildcard_succeeds_on_object :
    patch_ext (Json.obj [("foo", Json.obj [])])
        (PatchOperation.add ["foo", "*"] (Json.num 42)) =
      (Json.obj [("foo", Json.obj [("*", Json.num 42)])], Except.ok ()) := rfl

/-- C5 counterexample: the claim says only the exact segment `*` is a
wildcard and that any other segment (including ones merely beginning with
`*`) is a literal key.  On the document `{"*a": 5}` the path `/*a` — whose
single segment is not exactly `*` — resolves to `5`, yet `matches` returns
the empty list instead of the claimed singleton: the substring search for
`/*` treats every segment *beginning* with `*` as a wildcard. -/
theorem star_prefixed_segment_not_literal :
    resolve ["*a"] (Json.obj [("*a", Json.num 5)]) = some (Json.num 5) ∧
    match_paths ["*a"] (Json.obj [("*a", Json.num 5)]) = [] :=
  ⟨rfl, rfl⟩

/-- C5 (amended): for every path none of whose segments *begins with* the
character `*`, if the path resolves in the document then `matches` returns
exactly the singleton `[(P, resolve(P, D))]`. -/
theorem no_leading_star_single_match : ∀ (P : List String) (D v : Json),
    (∀ t ∈ P, startsStar t = false) → resolve P D = some v →
    match_paths P D = [(P, v)] := by
  intro P D v hstar hres
  rw [match_paths_base D (splitStar_eq_none.mpr hstar), hres]

/-- Witness for C5's amended theorem at the repository fixture. -/
theorem no_leading_star_single_match_witness :
    match_paths ["foo", "0", "baz"] testDoc =
      [(["foo", "0", "baz"], Json.obj [("buzz", Json.num 0)])] :=
  no_leading_star_single_match ["foo", "0", "baz"] testDoc
    (Json.obj [("buzz", Json.num 0)]) (by decide) rfl

/-- C1 counterexample: the claim says `matches` returns exactly N entries
whenever the head resolves to an array of length N (with sums only for
nested wildcards).  On the repository fixture the head `/foo` of
`/foo/*/baz/buzz` resolves to an array of length 3, there is no nested
wildcard, yet `matches` returns a single entry (only element 0 carries
`baz/buzz`), as the repository's own test `test_matches_4` expects. -/
theorem nonterminal_wildcard_count_refuted :
    resolve ["foo"] testDoc = some (Json.arr [entry0, entry1, entry2]) ∧
    ([entry0, entry1, entry2] : List Json).length = 3 ∧
    match_paths ["foo", "*", "baz", "buzz"] testDoc =
      [(["foo", "0", "baz", "buzz"], Json.num 0)] ∧
    (match_paths ["foo", "*", "baz", "buzz"] testDoc).length ≠ 3 :=
  ⟨rfl, rfl, rfl, by decide⟩

/-- C6: a Replace whose final segment addresses a key in an object parent
fails with `TargetDoesNotExist` when the edit reaches a matched parent
lacking that key (the earlier targets keep their edits, see C9). -/
theorem replace_absent_key_errors
    (path subpath : List String) (tail : String) (val D D0 D1 : Json)
    (ts1 ts2 : List (List String)) (t : List String)
    (kvs : List (String × Json))
    (h1 : splitBack path = some (subpath, tail))
    (h2 : patch_ext_helper subpath D PatchMode.error =
      (D0, Except.ok (ts1 ++ t :: ts2)))
    (h3 : applyEdits (editAddReplace path tail val true) ts1 D0 =
      (D1, Except.ok ()))
    (h4 : resolve t D1 = some (Json.obj kvs))
    (h5 : containsKey tail kvs = false) :
    patch_ext D (PatchOperation.replace path val) =
      (D1, Except.error (PatchError.targetDoesNotExist (ptrStr path))) := by
  have h5' : editAddReplace path tail val true (Json.obj kvs) =
      Except.error (PatchError.targetDoesNotExist (ptrStr path)) := by
    simp [editAddReplace, h5]
  exact add_or_replace_fail_at true path subpath tail val D D0 D1
    (Json.obj kvs) ts1 ts2 t _ h1 h2 h3 h4 h5'

/-- Witness for C6 at the spec's scenario: `replace("/foo/*/baz/buzz", 42)`
on the fixture fails with `TargetDoesNotExist` (entry 1 lacks `buzz`). -/
theorem replace_absent_key_errors_witness :
    patch_ext testDoc (PatchOperation.replace ["foo", "*", "baz", "buzz"] (Json.num 42)) =
      (Json.obj [("foo", Json.arr
        [Json.obj [("baz", Json.obj [("buzz", Json.num 42)])], entry1, entry2])],
       Except.error (PatchError.targetDoesNotExist "/foo/*/baz/buzz")) :=
  replace_absent_key_errors ["foo", "*", "baz", "buzz"] ["foo", "*", "baz"]
    "buzz" (Json.num 42) testDoc testDoc
    (Json.obj [("foo", Json.arr
      [Json.obj [("baz", Json.obj [("buzz", Json.num 42)])], entry1, entry2])])
    [["foo", "0", "baz"]] [["foo", "2", "baz"]] ["foo", "1", "baz"]
    [("quzz", Json.num 1)] rfl rfl rfl rfl rfl

/-- C7: a Replace whose final segment is the append marker `-` on an array
parent does not fail for want of an existing element: it succeeds and pushes
the value onto the end of the array. -/
theorem replace_append_marker_pushes
    (path subpath : List String) (tail : String) (v D D0 : Json)
    (t : List String) (xs : List Json)
    (h1 : splitBack path = some (subpath, tail))
    (h2 : toIndex tail = some Idx.next)
    (h3 : patch_ext_helper subpath D PatchMode.error = (D0, Except.ok [t]))
    (h4 : resolve t D0 = some (Json.arr xs)) :
    ∃ D2, patch_ext D (PatchOperation.replace path v) = (D2, Except.ok ()) ∧
      resolve t D2 = some (Json.arr (xs ++ [v])) := by
  have hedit : editAddReplace path tail v true (Json.arr xs) =
      Except.ok (Json.arr (xs ++ [v])) := by
    simp [editAddReplace, h2]
  obtain ⟨D2, hup, hres2⟩ :=
    resolve_updateAt t (fun _ => Json.arr (xs ++ [v])) D0 (Json.arr xs) h4
  refine ⟨D2, ?_, hres2⟩
  show add_or_replace D path v true = (D2, Except.ok ())
  unfold add_or_replace
  rw [h1]
  show (match patch_ext_helper subpath D PatchMode.error with
    | (v1, Except.error e) => (v1, Except.error e)
    | (v1, Except.ok targets) =>
      applyEdits (editAddReplace path tail v true) targets v1) =
    (D2, Except.ok ())
  rw [h3]
  show applyEdits (editAddReplace path tail v true) [t] D0 = (D2, Except.ok ())
  simp only [applyEdits, h4, hedit, hup, Option.getD_some]

/-- Witness for C7: a Replace at path `["foo", "-"]` on the fixture pushes
`42` onto the `foo` array. -/
theorem replace_append_marker_pushes_witness :
    ∃ D2, patch_ext testDoc (PatchOperation.replace ["foo", "-"] (Json.num 42)) =
        (D2, Except.ok ()) ∧
      resolve ["foo"] D2 =
        some (Json.arr ([entry0, entry1, entry2] ++ [Json.num 42])) :=
  replace_append_marker_pushes ["foo", "-"] ["foo"] "-" (Json.num 42)
    testDoc testDoc ["foo"] [entry0, entry1, entry2] rfl rfl rfl rfl

/-- C8: a Remove whose final segment is the wildcard marker clears a matched
array parent entirely (general single-target statement), and on the nested
fixture `[[[{"bar":"baz"}],[{"fuzz":"quzz"}]]]` the operation
`remove("/*/*/*")` clears every innermost array to `[]`, preserving the
surrounding structure. -/
theorem remove_wildcard_clears_array :
    (∀ (path subpath : List String) (D D0 : Json) (t : List String)
        (xs : List Json),
      splitBack path = some (subpath, "*") →
      patch_ext_helper subpath D PatchMode.skip = (D0, Except.ok [t]) →
      resolve t D0 = some (Json.arr xs) →
      ∃ D2, patch_ext D (PatchOperation.remove path) = (D2, Except.ok ()) ∧
        resolve t D2 = some (Json.arr [])) ∧
    patch_ext nestedDoc (PatchOperation.remove ["*", "*", "*"]) =
      (Json.arr [Json.arr [Json.arr [], Json.arr []]], Except.ok ()) := by
  constructor
  · intro path subpath D D0 t xs h1 h2 h3
    have hedit : editRemove path "*" (Json.arr xs) = Except.ok (Json.arr []) := by
      simp [editRemove]
    obtain ⟨D2, hup, hres2⟩ :=
      resolve_updateAt t (fun _ => Json.arr []) D0 (Json.arr xs) h3
    refine ⟨D2, ?_, hres2⟩
    show remove D path = (D2, Except.ok ())
    simp only [remove, h1]
    rw [h2]
    show applyEdits (editRemove path "*") [t] D0 = (D2, Except.ok ())
    simp only [applyEdits, h3, hedit, hup, Option.getD_some]
  · rfl

/-- Witness for C8's general part: `remove("/foo/*")` on `{"foo": [1, 2]}`
clears the array. -/
theorem remove_wildcard_clears_array_witness :
    ∃ D2, patch_ext (Json.obj [("foo", Json.arr [Json.num 1, Json.num 2])])
        (PatchOperation.remove ["foo", "*"]) = (D2, Except.ok ()) ∧
      resolve ["foo"] D2 = some (Json.arr []) :=
  remove_wildcard_clears_array.1 ["foo", "*"] ["foo"]
    (Json.obj [("foo", Json.arr [Json.num 1, Json.num 2])])
    (Json.obj [("foo", Json.arr [Json.num 1, Json.num 2])])
    ["foo"] [Json.num 1, Json.num 2] rfl rfl rfl

/-- C9: when a wildcard Add or Replace fans out to several targets and the
edit of the k-th target fails, `patch_ext` returns that error and the
document keeps exactly the edits already applied to the first k−1 targets
(no rollback). -/
theorem failed_fanout_keeps_partial_edits
    (repl : Bool) (path subpath : List String) (tail : String)
    (val D D0 D1 x : Json) (ts1 ts2 : List (List String)) (t : List String)
    (e : PatchError)
    (h1 : splitBack path = some (subpath, tail))
    (h2 : patch_ext_helper subpath D
      (if repl then PatchMode.error else PatchMode.create) =
      (D0, Except.ok (ts1 ++ t :: ts2)))
    (h3 : applyEdits (editAddReplace path tail val repl) ts1 D0 =
      (D1, Except.ok ()))
    (h4 : resolve t D1 = some x)
    (h5 : editAddReplace path tail val repl x = Except.error e) :
    patch_ext D
      (if repl then PatchOperation.replace path val
       else PatchOperation.add path val) = (D1, Except.error e) := by
  cases repl with
  | true =>
    exact add_or_replace_fail_at true path subpath tail val D D0 D1 x
      ts1 ts2 t e h1 h2 h3 h4 h5
  | false =>
    exact add_or_replace_fail_at false path subpath tail val D D0 D1 x
      ts1 ts2 t e h1 h2 h3 h4 h5

/-- Witness for C9: `add("/foo/*/5", 9)` on `{"foo": [[0,0,0,0,0,0], []]}`
edits the first array, then fails `OutOfBounds` on the second; the first
edit remains in the returned document. -/
theorem failed_fanout_keeps_partial_edits_witness :
    patch_ext
      (Json.obj [("foo", Json.arr
        [Json.arr [Json.num 0, Json.num 0, Json.num 0, Json.num 0, Json.num 0,
          Json.num 0], Json.arr []])])
      (PatchOperation.add ["foo", "*", "5"] (Json.num 9)) =
    (Json.obj [("foo", Json.arr
      [Json.arr [Json.num 0, Json.num 0, Json.num 0, Json.num 0, Json.num 0,
        Json.num 9, Json.num 0], Json.arr []])],
     Except.error (PatchError.outOfBounds 5)) :=
  failed_fanout_keeps_partial_edits false ["foo", "*", "5"] ["foo", "*"] "5"
    (Json.num 9)
    (Json.obj [("foo", Json.arr
      [Json.arr [Json.num 0, Json.num 0, Json.num 0, Json.num 0, Json.num 0,
        Json.num 0], Json.arr []])])
    (Json.obj [("foo", Json.arr
      [Json.arr [Json.num 0, Json.num 0, Json.num 0, Json.num 0, Json.num 0,
        Json.num 0], Json.arr []])])
    (Json.obj [("foo", Json.arr
      [Json.arr [Json.num 0, Json.num 0, Json.num 0, Json.num 0, Json.num 0,
        Json.num 9, Json.num 0], Json.arr []])])
    (Json.arr []) [["foo", "0"]] [] ["foo", "1"] (PatchError.outOfBounds 5)
    rfl rfl rfl rfl rfl

/-- C1 (amended): for every document D and wildcard path whose head (the
segments before the first wildcard) resolves in D to an array, `matches`
returns one entry per array element in which the remainder of the path after
the wildcard matches: when the remainder is wildcard-free this is the
ascending-index `filterMap` of the remainder's resolution over the elements
(exactly N entries when the wildcard is the final segment, since the empty
remainder resolves in every element); for a nested-wildcard remainder the
entries are the concatenation, in ascending index order, of the recursive
matches of each element with the concrete index token spliced in; and every
returned entry's concrete path resolves in D to the paired value. -/
theorem wildcard_match_enumeration :
    (∀ (H : List String) (s : String) (R : List String) (D : Json)
        (xs : List Json),
      (∀ t ∈ H, startsStar t = false) →
      startsStar s = true →
      (∀ t ∈ R, startsStar t = false) →
      resolve H D = some (Json.arr xs) →
      match_paths (H ++ s :: R) D =
        xs.enum.filterMap (fun ix =>
          (resolve R ix.2).map (fun v => (H ++ natTok ix.1 :: R, v)))) ∧
    (∀ (P head c : List String) (D : Json) (xs : List Json),
      splitStar P = some (head, c) →
      resolve head D = some (Json.arr xs) →
      match_paths P D =
        xs.enum.flatMap (fun ix =>
          (match_paths c ix.2).map
            (fun pv => (head ++ natTok ix.1 :: pv.1, pv.2)))) ∧
    (∀ (P : List String) (D : Json) (pv : List String × Json),
      pv ∈ match_paths P D → resolve pv.1 D = some pv.2) := by
  refine ⟨?_, ?_, ?_⟩
  · intro H s R D xs hH hs hR hres
    rw [match_paths_star D (splitStar_append s R hH hs)]
    unfold matchCont
    rw [hres]
    show matchElems (fun x => match_paths R x) H 0 xs = _
    rw [matchElems_filterMap R H hR]
    rfl
  · intro P head c D xs hsplit hres
    rw [match_paths_star D hsplit]
    unfold matchCont
    rw [hres]
    show matchElems (fun x => match_paths c x) head 0 xs = _
    rw [matchElems_bind]
    rfl
  · have main : ∀ (N : Nat) (P : List String), P.length ≤ N →
        ∀ (D : Json) (pv : List String × Json),
        pv ∈ match_paths P D → resolve pv.1 D = some pv.2 := by
      intro N
      induction N with
      | zero =>
        intro P hP D pv hmem
        have hnil : P = [] := List.length_eq_zero.mp (by omega)
        subst hnil
        have hmem' : pv ∈ [(([] : List String), D)] := hmem
        simp only [List.mem_singleton] at hmem'
        subst hmem'
        rfl
      | succ N ih =>
        intro P hP D pv hmem
        cases hs : splitStar P with
        | none =>
          rw [match_paths_base D hs] at hmem
          cases hr : resolve P D with
          | some x =>
            rw [hr] at hmem
            have hmem' : pv ∈ [(P, x)] := hmem
            simp only [List.mem_singleton] at hmem'
            subst hmem'
            exact hr
          | none =>
            rw [hr] at hmem
            exact absurd (hmem : pv ∈ ([] : List (List String × Json)))
              (List.not_mem_nil pv)
        | some hc =>
          obtain ⟨head, c⟩ := hc
          have hplen := splitStar_length hs
          rw [match_paths_star D hs] at hmem
          unfold matchCont at hmem
          cases hr : resolve head D with
          | none =>
            rw [hr] at hmem
            exact absurd (hmem : pv ∈ ([] : List (List String × Json)))
              (List.not_mem_nil pv)
          | some hv =>
            rw [hr] at hmem
            cases hv with
            | arr xs =>
              have hmem' : pv ∈ matchElems (fun x => match_paths c x) head 0 xs :=
                hmem
              obtain ⟨j, x, pv', hget, hpv', heq⟩ := matchElems_mem xs 0 pv hmem'
              subst heq
              show resolve (head ++ natTok (0 + j) :: pv'.1) D = some pv'.2
              rw [resolve_append, hr]
              show resolve (natTok (0 + j) :: pv'.1) (Json.arr xs) = some pv'.2
              have hj : (0 : Nat) + j = j := by omega
              rw [hj]
              simp only [resolve, toIndex_natTok, hget]
              exact ih c (by omega) x pv' hpv'
            | null =>
              exact absurd (hmem : pv ∈ ([] : List (List String × Json)))
                (List.not_mem_nil pv)
            | bool b =>
              exact absurd (hmem : pv ∈ ([] : List (List String × Json)))
                (List.not_mem_nil pv)
            | num n =>
              exact absurd (hmem : pv ∈ ([] : List (List String × Json)))
                (List.not_mem_nil pv)
            | str s2 =>
              exact absurd (hmem : pv ∈ ([] : List (List String × Json)))
                (List.not_mem_nil pv)
            | obj kvs =>
              exact absurd (hmem : pv ∈ ([] : List (List String × Json)))
                (List.not_mem_nil pv)
    intro P D pv hmem
    exact main P.length P le_rfl D pv hmem

/-- Witness for C1's amended theorem: the wildcard-free-remainder
characterization at the spec's own non-terminal scenario (one surviving
entry out of three elements) and at a terminal wildcard (all three
elements), the recursive closed form, and soundness at one matched entry. -/
theorem wildcard_match_enumeration_witness :
    match_paths (["foo"] ++ "*" :: ["baz", "buzz"]) testDoc =
      ([entry0, entry1, entry2] : List Json).enum.filterMap (fun ix =>
        (resolve ["baz", "buzz"] ix.2).map
          (fun v => (["foo"] ++ natTok ix.1 :: ["baz", "buzz"], v))) ∧
    match_paths (["foo"] ++ "*" :: []) testDoc =
      ([entry0, entry1, entry2] : List Json).enum.filterMap (fun ix =>
        (resolve [] ix.2).map (fun v => (["foo"] ++ natTok ix.1 :: [], v))) ∧
    match_paths ["foo", "*", "baz"] testDoc =
      ([entry0, entry1, entry2] : List Json).enum.flatMap (fun ix =>
        (match_paths ["baz"] ix.2).map
          (fun pv => (["foo"] ++ natTok ix.1 :: pv.1, pv.2))) ∧
    resolve ["foo", "0", "baz"] testDoc =
      some (Json.obj [("buzz", Json.num 0)]) := by
  refine ⟨?_, ?_, ?_, ?_⟩
  · exact wildcard_match_enumeration.1 ["foo"] "*" ["baz", "buzz"] testDoc
      [entry0, entry1, entry2] (by decide) (by decide) (by decide) rfl
  · exact wildcard_match_enumeration.1 ["foo"] "*" [] testDoc
      [entry0, entry1, entry2] (by decide) (by decide) (by decide) rfl
  · exact wildcard_match_enumeration.2.1 ["foo", "*", "baz"] ["foo"] ["baz"]
      testDoc [entry0, entry1, entry2] rfl rfl
  · refine wildcard_match_enumeration.2.2 ["foo", "*", "baz"] testDoc
      (["foo", "0", "baz"], Json.obj [("buzz", Json.num 0)]) ?_
    rw [show match_paths ["foo", "*", "baz"] testDoc =
      [(["foo", "0", "baz"], Json.obj [("buzz", Json.num 0)]),
       (["foo", "1", "baz"], Json.obj [("quzz", Json.num 1)]),
       (["foo", "2", "baz"], Json.obj [("fixx", Json.num 2)])] from rfl]
    exact List.mem_cons_self _ _

/-- C2: whenever `patch_ext_helper` succeeds on a document without modifying
it (in particular always under the `Error` and `Skip` policies, and under
`Create` when nothing was missing), the target paths it returns are exactly
the concrete paths enumerated by the read-only matcher `matches`, in the
same ascending-index depth-first order. -/
theorem helper_agrees_matcher : ∀ (mode : PatchMode) (path : List String)
    (D : Json) (ts : List (List String)),
    patch_ext_helper path D mode = (D, Except.ok ts) →
    ts = (match_paths path D).map Prod.fst := by
  have main : ∀ (N : Nat) (path : List String), path.length ≤ N →
      ∀ (mode : PatchMode) (D : Json) (ts : List (List String)),
      patch_ext_helper path D mode = (D, Except.ok ts) →
      ts = (match_paths path D).map Prod.fst := by
    intro N
    induction N with
    | zero =>
      intro path hlen mode D ts h
      have hnil : path = [] := List.length_eq_zero.mp (by omega)
      subst hnil
      have h' : ((D, Except.ok [([] : List String)]) :
          Json × Except PatchError (List (List String))) = (D, Except.ok ts) := h
      simp only [Prod.mk.injEq, Except.ok.injEq] at h'
      rw [← h'.2]
      rfl
    | succ N ih =>
      intro path hlen mode D ts h
      cases hs : splitStar path with
      | none =>
        rw [patch_ext_helper_base D mode hs] at h
        cases hr : resolve path D with
        | some x =>
          rw [hr] at h
          have h' : ((D, Except.ok [path]) :
              Json × Except PatchError (List (List String))) = (D, Except.ok ts) := h
          simp only [Prod.mk.injEq, Except.ok.injEq] at h'
          rw [← h'.2, match_paths_base D hs, hr]
          rfl
        | none =>
          rw [hr] at h
          cases mode with
          | error =>
            have h' : ((D, Except.error (PatchError.targetDoesNotExist (ptrStr path))) :
                Json × Except PatchError (List (List String))) = (D, Except.ok ts) := h
            simp at h'
          | skip =>
            have h' : ((D, Except.ok ([] : List (List String))) :
                Json × Except PatchError (List (List String))) = (D, Except.ok ts) := h
            simp only [Prod.mk.injEq, Except.ok.injEq] at h'
            rw [← h'.2, match_paths_base D hs, hr]
            rfl
          | create =>
            cases ha : assign path (Json.obj []) D with
            | error e =>
              rw [ha] at h
              have h' : ((D, Except.error e) :
                  Json × Except PatchError (List (List String))) = (D, Except.ok ts) := h
              simp at h'
            | ok v2 =>
              rw [ha] at h
              have h2' : ((match resolve path v2 with
                  | some _ => (v2, Except.ok [path])
                  | none => (v2, Except.error PatchError.resolveError)) :
                  Json × Except PatchError (List (List String))) = (D, Except.ok ts) := h
              cases hr2 : resolve path v2 with
              | some y =>
                rw [hr2] at h2'
                have h' : ((v2, Except.ok [path]) :
                    Json × Except PatchError (List (List String))) = (D, Except.ok ts) := h2'
                simp only [Prod.mk.injEq] at h'
                have hv2 : v2 = D := h'.1
                rw [hv2] at hr2
                rw [hr] at hr2
                cases hr2
              | none =>
                rw [hr2] at h2'
                have h' : ((v2, Except.error PatchError.resolveError) :
                    Json × Except PatchError (List (List String))) = (D, Except.ok ts) := h2'
                simp at h'
      | some hc =>
        obtain ⟨head, c⟩ := hc
        have hplen := splitStar_length hs
        rw [patch_ext_helper_star D mode hs] at h
        unfold helperStar at h
        cases hr : resolve head D with
        | some hv =>
          rw [hr] at h
          have hA : helperCont (fun x => patch_ext_helper c x mode) head D =
              (D, Except.ok ts) := h
          unfold helperCont at hA
          rw [hr] at hA
          cases hv with
          | arr xs =>
            have hB : ((match mapMElems (fun x => patch_ext_helper c x mode) head 0 xs with
                | (xs2, r) => ((updateAt head (fun _ => Json.arr xs2) D).getD D, r)) :
                Json × Except PatchError (List (List String))) = (D, Except.ok ts) := hA
            cases hm : mapMElems (fun x => patch_ext_helper c x mode) head 0 xs with
            | mk xs2 r =>
              rw [hm] at hB
              have h' : (((updateAt head (fun _ => Json.arr xs2) D).getD D, r) :
                  Json × Except PatchError (List (List String))) = (D, Except.ok ts) := hB
              simp only [Prod.mk.injEq] at h'
              obtain ⟨hdoc, hres'⟩ := h'
              obtain ⟨D2, hup, hr2⟩ :=
                resolve_updateAt head (fun _ => Json.arr xs2) D (Json.arr xs) hr
              rw [hup] at hdoc
              simp only [Option.getD_some] at hdoc
              have hr2' : resolve head D2 = some (Json.arr xs2) := hr2
              rw [hdoc] at hr2'
              rw [hr] at hr2'
              have hxs : xs2 = xs := by
                injection hr2' with hh
                injection hh with hh2
                exact hh2.symm
              rw [hres'] at hm
              have hts := mapMElems_agree xs xs2 0 ts hm hxs
                (fun x hx subs hsub => ih c (by omega) mode x subs hsub)
              rw [match_paths_star D hs]
              unfold matchCont
              rw [hr]
              exact hts
          | null =>
            have h' : ((D, Except.error (PatchError.unexpectedType (ptrStr head))) :
                Json × Except PatchError (List (List String))) = (D, Except.ok ts) := hA
            simp at h'
          | bool b =>
            have h' : ((D, Except.error (PatchError.unexpectedType (ptrStr head))) :
                Json × Except PatchError (List (List String))) = (D, Except.ok ts) := hA
            simp at h'
          | num n =>
            have h' : ((D, Except.error (PatchError.unexpectedType (ptrStr head))) :
                Json × Except PatchError (List (List String))) = (D, Except.ok ts) := hA
            simp at h'
          | str s2 =>
            have h' : ((D, Except.error (PatchError.unexpectedType (ptrStr head))) :
                Json × Except PatchError (List (List String))) = (D, Except.ok ts) := hA
            simp at h'
          | obj kvs =>
            have h' : ((D, Except.error (PatchError.unexpectedType (ptrStr head))) :
                Json × Except PatchError (List (List String))) = (D, Except.ok ts) := hA
            simp at h'
        | none =>
          rw [hr] at h
          cases mode with
          | error =>
            have h' : ((D, Except.error (PatchError.targetDoesNotExist (ptrStr path))) :
                Json × Except PatchError (List (List String))) = (D, Except.ok ts) := h
            simp at h'
          | skip =>
            have h' : ((D, Except.ok ([] : List (List String))) :
                Json × Except PatchError (List (List String))) = (D, Except.ok ts) := h
            simp only [Prod.mk.injEq, Except.ok.injEq] at h'
            rw [← h'.2, match_paths_star D hs]
            unfold matchCont
            rw [hr]
            rfl
          | create =>
            cases ha : assign path (Json.arr []) D with
            | error e =>
              rw [ha] at h
              have h' : ((D, Except.error e) :
                  Json × Except PatchError (List (List String))) = (D, Except.ok ts) := h
              simp at h'
            | ok v2 =>
              rw [ha] at h
              have hA : helperCont (fun x => patch_ext_helper c x PatchMode.create) head v2 =
                  (D, Except.ok ts) := h
              unfold helperCont at hA
              cases hr2 : resolve head v2 with
              | none =>
                rw [hr2] at hA
                have h' : ((v2, Except.error PatchError.resolveError) :
                    Json × Except PatchError (List (List String))) = (D, Except.ok ts) := hA
                simp at h'
              | some hv2 =>
                rw [hr2] at hA
                cases hv2 with
                | arr xs =>
                  have hB : ((match mapMElems (fun x => patch_ext_helper c x PatchMode.create) head 0 xs with
                      | (xs2, r) => ((updateAt head (fun _ => Json.arr xs2) v2).getD v2, r)) :
                      Json × Except PatchError (List (List String))) = (D, Except.ok ts) := hA
                  cases hm : mapMElems (fun x => patch_ext_helper c x PatchMode.create) head 0 xs with
                  | mk xs2 r =>
                    rw [hm] at hB
                    have h' : (((updateAt head (fun _ => Json.arr xs2) v2).getD v2, r) :
                        Json × Except PatchError (List (List String))) = (D, Except.ok ts) := hB
                    simp only [Prod.mk.injEq] at h'
                    have hdoc := h'.1
                    obtain ⟨D2, hup, hr3⟩ :=
                      resolve_updateAt head (fun _ => Json.arr xs2) v2 (Json.arr xs) hr2
                    rw [hup] at hdoc
                    simp only [Option.getD_some] at hdoc
                    have hr3' : resolve head D2 = some (Json.arr xs2) := hr3
                    rw [hdoc] at hr3'
                    rw [hr] at hr3'
                    cases hr3'
                | null =>
                  have h' : ((v2, Except.error (PatchError.unexpectedType (ptrStr head))) :
                      Json × Except PatchError (List (List String))) = (D, Except.ok ts) := hA
                  simp at h'
                | bool b =>
                  have h' : ((v2, Except.error (PatchError.unexpectedType (ptrStr head))) :
                      Json × Except PatchError (List (List String))) = (D, Except.ok ts) := hA
                  simp at h'
                | num n =>
                  have h' : ((v2, Except.error (PatchError.unexpectedType (ptrStr head))) :
                      Json × Except PatchError (List (List String))) = (D, Except.ok ts) := hA
                  simp at h'
                | str s2 =>
                  have h' : ((v2, Except.error (PatchError.unexpectedType (ptrStr head))) :
                      Json × Except PatchError (List (List String))) = (D, Except.ok ts) := hA
                  simp at h'
                | obj kvs =>
                  have h' : ((v2, Except.error (PatchError.unexpectedType (ptrStr head))) :
                      Json × Except PatchError (List (List String))) = (D, Except.ok ts) := hA
                  simp at h'
  intro mode path D ts h
  exact main path.length path le_rfl mode D ts h

/-- Witness for C2: under the `Error` policy on the unmodified fixture, the
resolver's targets equal the matcher's paths. -/
theorem helper_agrees_matcher_witness :
    patch_ext_helper ["foo", "*", "baz"] testDoc PatchMode.error =
      (testDoc, Except.ok
        [["foo", "0", "baz"], ["foo", "1", "baz"], ["foo", "2", "baz"]]) ∧
    [["foo", "0", "baz"], ["foo", "1", "baz"], ["foo", "2", "baz"]] =
      (match_paths ["foo", "*", "baz"] testDoc).map Prod.fst := by
  constructor
  · rfl
  · exact helper_agrees_matcher PatchMode.error ["foo", "*", "baz"] testDoc
      [["foo", "0", "baz"], ["foo", "1", "baz"], ["foo", "2", "baz"]] rfl

end JsonPatchExt
